import Mathlib

/-!
# Lz4Codec: block framing of the LZ4 stream codec

A shallow embedding of `src/main/native/src/codec/Lz4Codec.cc`:

* `LZ4_MaxCompressedSize`, with the `double` product `orig*1.005` computed
  exactly as IEEE-754 binary64 does (round to nearest, ties to even), on
  integers scaled by `2^52`;
* `Lz4CompressStream.compressOneBlock`, which frames one block;
* `Lz4DecompressStream.decompressOneBlock`, which reads one payload back;
* `maxCompressedLength` of both streams.

Buffers reached through raw pointers are total maps from offsets to bytes.
The two LZ4 primitives, the `bswap` helper and the host byte order are
parameters (`Env`); the byte sink and the byte source are the sequence of
writes made so far and the bytes not yet consumed.
-/

namespace NativeTask

/-! ## Machine integers -/

/-- A byte. -/
abbrev Byte := Fin 256

/-- Raw memory behind a `char *`: the byte at each offset from the pointer. -/
abbrev Mem := Nat → Byte

/-- Conversion to `int32_t` / `int`: the value modulo `2^32`, taken in
`[-2^31, 2^31)`. -/
def toInt32 (x : Int) : Int := (x + 2147483648) % 4294967296 - 2147483648

/-- Conversion to `uint32_t`: the value modulo `2^32`. -/
def toUInt32 (x : Int) : Nat := (x % 4294967296).toNat

/-- Conversion to `uint64_t`: the value modulo `2^64`. -/
def toUInt64 (x : Int) : Nat := (x % 18446744073709551616).toNat

/-! ## The `double` product `orig * 1.005` -/

/-- The `double` nearest to the literal `1.005` is `m1005 / 2^52`
(`0x1.0147ae147ae14p+0`). -/
def m1005 : Nat := 4526117625507348

/-- Number of low bits a binary64 significand cannot hold: the least `s`
with `p / 2^s < 2^53` (the first argument bounds the search). -/
def ulpShift : Nat → Nat → Nat
  | 0, _ => 0
  | fuel + 1, p => if p < 9007199254740992 then 0 else ulpShift fuel (p / 2) + 1

/-- Rounding of the exact value `p / 2^52` to binary64, round to nearest, ties
to even; the result is again scaled by `2^52`. -/
def roundDouble (p : Nat) : Nat :=
  let s := ulpShift p p
  let q := p / 2 ^ s
  let r := p % 2 ^ s
  if 2 ^ s < 2 * r ∨ (2 * r = 2 ^ s ∧ q % 2 = 1) then (q + 1) * 2 ^ s else q * 2 ^ s

/-- Integer part of the `double` product `n * 1.005`, for `n ≥ 0`: `n`
converts to `double` exactly and the product is rounded once, to binary64
(no wider intermediate precision). -/
def truncMul1005 (n : Nat) : Nat := roundDouble (n * m1005) / 4503599627370496

/-- The `(int32_t)(orig*1.005)` of the source: the product of magnitudes
carries the sign of `orig`, and the cast truncates toward zero. The cast is
undefined when the truncated value is not an `int32_t`. -/
def castMul1005 (orig : Int) : Option Int :=
  let t : Int := orig.sign * (truncMul1005 orig.natAbs : Int)
  if -2147483648 ≤ t ∧ t ≤ 2147483647 then some t else none

/-- `LZ4_MaxCompressedSize` (Lz4Codec.cc, line 46):
`std::max((int32_t)(orig*1.005), orig+8)`. `orig+8` is an `int` addition,
undefined on overflow. -/
def LZ4_MaxCompressedSize (orig : Int) : Option Int :=
  match castMul1005 orig with
  | none => none
  | some t => if orig + 8 ≤ 2147483647 then some (max t (orig + 8)) else none

/-- `Lz4CompressStream::maxCompressedLength` (line 70): the `uint64_t`
argument narrows to the `int32_t` parameter (modulo `2^32`), the `int32_t`
result widens to `uint64_t` (modulo `2^64`). -/
def Lz4CompressStream.maxCompressedLength (origLength : Nat) : Option Nat :=
  (LZ4_MaxCompressedSize (toInt32 origLength)).map toUInt64

/-- `Lz4DecompressStream::maxCompressedLength` (line 106), the same body. -/
def Lz4DecompressStream.maxCompressedLength (origLength : Nat) : Option Nat :=
  (LZ4_MaxCompressedSize (toInt32 origLength)).map toUInt64

/-! ## Byte order -/

/-- Byte order of the host. -/
inductive Endianness where
  | little
  | big
  deriving DecidableEq, Repr

/-- The four bytes of a 32-bit value, most significant first. -/
def be32 (v : Nat) : List Byte :=
  [Fin.ofNat (v / 16777216), Fin.ofNat (v / 65536), Fin.ofNat (v / 256), Fin.ofNat v]

/-- The four bytes a `uint32_t` occupies in memory on the given host. -/
def hostBytes (host : Endianness) (v : Nat) : List Byte :=
  match host with
  | .little => (be32 v).reverse
  | .big => be32 v

/-- Reversal of the four bytes of a 32-bit value. -/
def byteSwap32 (v : Nat) : Nat :=
  v % 256 * 16777216 + v / 256 % 256 * 65536 + v / 65536 % 256 * 256 + v / 16777216 % 256

/-- The 32-bit value whose most-significant-first bytes are given. -/
def decodeBE32 (bs : List Byte) : Nat :=
  bs.foldl (fun acc b => acc * 256 + b.val) 0

/-! ## Memory -/

/-- The first `n` bytes behind a pointer. -/
def readMem (m : Mem) (n : Nat) : List Byte := (List.range n).map m

/-- Memory after the bytes `bs` are stored from offset `off` on. -/
def storeBytes (m : Mem) (off : Nat) (bs : List Byte) : Mem :=
  fun i => if off ≤ i then (bs.get? (i - off)).getD (m i) else m i

/-- The store `((uint32_t*) m)[idx] = v`: four bytes in host order at offset
`4 * idx`. -/
def storeU32 (host : Endianness) (m : Mem) (idx : Nat) (v : Nat) : Mem :=
  storeBytes m (4 * idx) (hostBytes host v)

/-! ## Environment and failures -/

/-- What `THROW_EXCEPTION` raises in this file. -/
inductive Exception where
  | IOException (msg : String)
  | OutOfMemoryException (msg : String)
  deriving DecidableEq, Repr

/-- What Lz4Codec.cc takes from outside: the host byte order, the `bswap`
helper of commons.h, and the two `extern "C"` primitives.

* `LZ4_compress source dest isize` gives the returned `int` and the memory
  behind `dest` after the call;
* `LZ4_uncompress source dest osize` gives the returned `int` and the memory
  behind `dest` after the call. -/
structure Env where
  host : Endianness
  bswap : Nat → Nat
  LZ4_compress : List Byte → Mem → Int → Int × Mem
  LZ4_uncompress : Mem → Mem → Int → Int × Mem

/-! ## Lz4CompressStream -/

/-- State of an `Lz4CompressStream`. `_stream` is the sink, recorded as the
writes it has received, oldest first. The declared type of
`_compressedBytesWritten` is not in the sources; it is an unbounded count
here. -/
structure Lz4CompressStream where
  _stream : List (List Byte)
  _tempBuffer : Mem
  _tempBufferSize : Nat
  _compressedBytesWritten : Nat

/-- `Lz4CompressStream::compressOneBlock` (Lz4Codec.cc, line 56). `buff` holds
the block, `length` is the `uint32_t` argument. The result is the outcome
together with the stream state left behind; `_tempBuffer` keeps whatever the
primitive stored even when the call throws. The initial value of
`compressedLength` (`_tempBufferSize - 8`) is never read. -/
def Lz4CompressStream.compressOneBlock (E : Env) (s : Lz4CompressStream)
    (buff : List Byte) (length : Nat) : Except Exception Unit × Lz4CompressStream :=
  let r := E.LZ4_compress buff (fun i => s._tempBuffer (i + 8)) (toInt32 length)
  let ret : Int := toInt32 r.1
  let tb0 : Mem := fun i => if i < 8 then s._tempBuffer i else r.2 (i - 8)
  if 0 < ret then
    let compressedLength : Nat := ret.toNat
    let tb1 := storeU32 E.host tb0 0 (E.bswap length)
    let tb2 := storeU32 E.host tb1 1 (E.bswap (compressedLength % 4294967296))
    (.ok (),
      { s with
        _tempBuffer := tb2
        _stream := s._stream ++ [readMem tb2 (compressedLength + 8)]
        _compressedBytesWritten := s._compressedBytesWritten + (compressedLength + 8) })
  else
    (.error (.IOException "compress LZ4 failed"), { s with _tempBuffer := tb0 })

/-- Framing of a sequence of blocks, one `compressOneBlock` call per block,
stopping at the first call that throws. -/
def Lz4CompressStream.compressBlocks (E : Env) :
    Lz4CompressStream → List (List Byte) → Except Exception Unit × Lz4CompressStream
  | s, [] => (.ok (), s)
  | s, b :: bs =>
    match Lz4CompressStream.compressOneBlock E s b b.length with
    | (.ok _, s1) => Lz4CompressStream.compressBlocks E s1 bs
    | (.error e, s1) => (.error e, s1)

/-! ## Lz4DecompressStream -/

/-- State of an `Lz4DecompressStream`. `_stream` is the source, recorded as
the bytes it has not delivered yet. The declared type of
`_compressedBytesRead` is not in the sources; it is an unbounded integer
here. -/
structure Lz4DecompressStream where
  _stream : List Byte
  _tempBuffer : Mem
  _tempBufferSize : Nat
  _compressedBytesRead : Int

/-- Modelled from the spec: `InputStream::readFully`, whose definition is not
among the sources (`ByteInputSource.readFully(buffer, exactLength) ->
bytesRead`). It delivers the next `length` bytes of the source into `buff`,
or all that are left when the source ends first, and returns how many it
delivered, as the `int32_t` the caller stores. -/
def readFully (stream : List Byte) (buff : Mem) (length : Nat) : Int × Mem × List Byte :=
  (toInt32 (stream.take length).length, storeBytes buff 0 (stream.take length),
    stream.drop length)

/-- `Lz4DecompressStream::decompressOneBlock` (Lz4Codec.cc, line 82).
`reallocOk` says whether `realloc` returns a buffer when it is called; `buff`
is the memory behind the caller's destination. The result is the outcome, the
stream state left behind and the destination memory left behind. -/
def Lz4DecompressStream.decompressOneBlock (E : Env) (reallocOk : Bool)
    (s : Lz4DecompressStream) (compressedSize : Nat) (buff : Mem) (length : Nat) :
    Except Exception Nat × Lz4DecompressStream × Mem :=
  if compressedSize > s._tempBufferSize ∧ reallocOk = false then
    (.error (.OutOfMemoryException "realloc failed"), s, buff)
  else
    let s1 : Lz4DecompressStream :=
      if compressedSize > s._tempBufferSize then { s with _tempBufferSize := compressedSize }
      else s
    let io := readFully s1._stream s1._tempBuffer compressedSize
    let rd : Int := io.1
    let s2 : Lz4DecompressStream := { s1 with _tempBuffer := io.2.1, _stream := io.2.2 }
    if toUInt32 rd ≠ compressedSize then
      (.error (.IOException "readFully reach EOF"), s2, buff)
    else
      let s3 : Lz4DecompressStream :=
        { s2 with _compressedBytesRead := s2._compressedBytesRead + rd }
      let r := E.LZ4_uncompress s3._tempBuffer buff (toInt32 length)
      let ret : Int := toInt32 r.1
      if toUInt32 ret = compressedSize then
        (.ok length, s3, r.2)
      else
        (.error (.IOException "decompress LZ4 failed"), s3, r.2)

/-- Modelled from the spec: the size of the frame buffer of a block compress
stream, set by the `BlockCompressStream` constructor, which is not among the
sources ("frameBuffer (header+payload staging, size = hint + 8)"). -/
def frameBufferSize (hint : Nat) : Nat := hint + 8

/-- One call of `decompressOneBlock`: whether `realloc` would return a buffer,
and the three arguments. -/
structure Call where
  reallocOk : Bool
  compressedSize : Nat
  buff : Mem
  length : Nat

/-- The stream state after a sequence of `decompressOneBlock` calls on one
stream, each call starting from the state the previous one left behind,
whether it returned or threw. -/
def Lz4DecompressStream.runCalls (E : Env) :
    Lz4DecompressStream → List Call → Lz4DecompressStream
  | s, [] => s
  | s, c :: cs =>
    Lz4DecompressStream.runCalls E
      (Lz4DecompressStream.decompressOneBlock E c.reallocOk s c.compressedSize c.buff
        c.length).2.1 cs

/-! ## Reading a framed stream -/

/-- Modelled from the spec: parsing of a framed stream by its headers alone,
the frame walk of `BlockDecompressStream::read`, which is not among the
sources ("offset 0..3 originalLength, offset 4..7 compressedLength, offset 8..
payload[compressedLength]"; "end-of-stream is detected by the underlying source
reporting no more bytes exactly at a frame boundary"). The result lists
`(originalLength, compressedLength)` of every frame, or is `none` when the
bytes do not end at a frame boundary. The first argument bounds the number of
frames. -/
def parseFrames : Nat → List Byte → Option (List (Nat × Nat))
  | _, [] => some []
  | 0, _ :: _ => none
  | fuel + 1, b :: bs =>
    if (b :: bs).length < 8 then none
    else
      let originalLength := decodeBE32 ((b :: bs).take 4)
      let compressedLength := decodeBE32 (((b :: bs).drop 4).take 4)
      let rest := (b :: bs).drop 8
      if rest.length < compressedLength then none
      else
        (parseFrames fuel (rest.drop compressedLength)).map
          (fun frames => (originalLength, compressedLength) :: frames)

/-- Parsing of a whole stream; every frame takes at least 8 bytes, so the
byte count bounds the number of frames. -/
def parseStream (bytes : List Byte) : Option (List (Nat × Nat)) :=
  parseFrames bytes.length bytes

/-- Modelled from the spec: the read loop over a framed source,
`BlockDecompressStream::read` driven until end of stream as TestCodec does;
the function is not among the sources ("reads exactly one frame header (8
bytes) from the source; if the source yields zero bytes at a frame boundary,
returns end-of-stream"; "Decodes originalLength and compressedLength from the
header (big-endian)"). Each frame is handed to `decompressOneBlock` with the
header's `compressedLength` and `originalLength`. The result is the bytes
produced and the sum of the returned counts; `none` only when the bound on the
number of frames (first argument after `reallocOk`) is used up. -/
def Lz4DecompressStream.decompressFrames (E : Env) (reallocOk : Bool) :
    Nat → Lz4DecompressStream → Mem → Option (Except Exception (List Byte × Nat))
  | 0, _, _ => none
  | fuel + 1, s, dst =>
    if s._stream.length = 0 then some (.ok ([], 0))
    else if s._stream.length < 8 then some (.error (.IOException "readFully reach EOF"))
    else
      let originalLength := decodeBE32 (s._stream.take 4)
      let compressedLength := decodeBE32 ((s._stream.drop 4).take 4)
      match Lz4DecompressStream.decompressOneBlock E reallocOk
          { s with _stream := s._stream.drop 8 } compressedLength dst originalLength with
      | (.error e, _, _) => some (.error e)
      | (.ok n, s1, dst1) =>
        match Lz4DecompressStream.decompressFrames E reallocOk fuel s1 dst1 with
        | some (.ok (bytes, total)) => some (.ok (readMem dst1 n ++ bytes, n + total))
        | other => other

/-- Decompression of a whole source; every frame takes at least 8 bytes, so
the byte count bounds the number of frames. -/
def Lz4DecompressStream.decompressStream (E : Env) (reallocOk : Bool)
    (s : Lz4DecompressStream) (dst : Mem) : Option (Except Exception (List Byte × Nat)) :=
  Lz4DecompressStream.decompressFrames E reallocOk (s._stream.length + 1) s dst

/-! ## Concrete environments -/

/-- A little-endian host with a stand-in codec: `LZ4_compress` stores a zero
byte followed by the block, `LZ4_uncompress` skips one byte and copies `osize`
bytes. -/
def storedEnv : Env where
  host := .little
  bswap := byteSwap32
  LZ4_compress := fun src dest _ => (toInt32 ((src.length : Int) + 1), storeBytes dest 0 (0 :: src))
  LZ4_uncompress := fun src dest osize =>
    (toInt32 ((toUInt32 osize : Int) + 1),
      storeBytes dest 0 ((readMem src (toUInt32 osize + 1)).drop 1))

/-- A little-endian host on which `LZ4_uncompress` reports malformed input at
byte position 1 (result `-1`) and `LZ4_compress` reports failure. -/
def malformedEnv : Env where
  host := .little
  bswap := byteSwap32
  LZ4_compress := fun _ dest _ => (0, dest)
  LZ4_uncompress := fun _ dest _ => (-1, dest)

/-- The `bswap` helper turns a host value into the value whose bytes in host
memory are the network-order (most significant first) bytes of the argument. -/
def HostToNetwork (E : Env) : Prop :=
  ∀ v : Nat, v < 4294967296 → hostBytes E.host (E.bswap v) = be32 v

/-- The primitives invert each other: whenever `LZ4_compress` reports `ret > 0`
compressed bytes for a block, `LZ4_uncompress`, run on any memory that starts
with those `ret` bytes and told the block's size, returns `ret` and leaves the
block at the start of its destination. -/
def LZ4RoundTrip (E : Env) : Prop :=
  ∀ (src : List Byte) (dest : Mem), src.length < 4294967296 →
    0 < toInt32 (E.LZ4_compress src dest (toInt32 src.length)).1 →
    ∀ (srcm dstm : Mem),
      (∀ i, i < (toInt32 (E.LZ4_compress src dest (toInt32 src.length)).1).toNat →
        srcm i = (E.LZ4_compress src dest (toInt32 src.length)).2 i) →
      toInt32 (E.LZ4_uncompress srcm dstm (toInt32 src.length)).1 =
        toInt32 (E.LZ4_compress src dest (toInt32 src.length)).1 ∧
      readMem (E.LZ4_uncompress srcm dstm (toInt32 src.length)).2 src.length = src

/-- The byte string `w` is a frame of the block `b`: for some prior content
`dest` of the staging area, `LZ4_compress` reports `ret > 0` and `w` is the
header of `b.length` and `ret` followed by the `ret` bytes the primitive left. -/
def IsFrameOf (E : Env) (b w : List Byte) : Prop :=
  ∃ dest : Mem,
    0 < toInt32 (E.LZ4_compress b dest (toInt32 b.length)).1 ∧
    w = be32 b.length ++ be32 (toInt32 (E.LZ4_compress b dest (toInt32 b.length)).1).toNat ++
      readMem (E.LZ4_compress b dest (toInt32 b.length)).2
        (toInt32 (E.LZ4_compress b dest (toInt32 b.length)).1).toNat

/-! ## Machine integer lemmas -/

theorem toInt32_of_range (x : Int) (h1 : -2147483648 ≤ x) (h2 : x < 2147483648) :
    toInt32 x = x := by
  unfold toInt32; omega

theorem toInt32_bounds (x : Int) : -2147483648 ≤ toInt32 x ∧ toInt32 x < 2147483648 := by
  unfold toInt32; omega

theorem toUInt32_toInt32 (x : Int) : toUInt32 (toInt32 x) = toUInt32 x := by
  unfold toUInt32 toInt32; omega

theorem toUInt32_natCast (n : Nat) : toUInt32 (n : Int) = n % 4294967296 := by
  unfold toUInt32; omega

/-! ## The rounded product -/

theorem ulpShift_le (fuel : Nat) :
    ∀ (p k : Nat), p < 9007199254740992 * 2 ^ k → ulpShift fuel p ≤ k := by
  induction fuel with
  | zero => intro p k _; simp [ulpShift]
  | succ f ih =>
    intro p k h
    unfold ulpShift
    split_ifs with hp
    · exact Nat.zero_le _
    · cases k with
      | zero => simp at h; omega
      | succ k =>
        have h2 : p / 2 < 9007199254740992 * 2 ^ k := by
          rw [pow_succ] at h
          omega
        have := ih (p / 2) k h2
        omega

/-- Rounding moves a value by at most half a unit in the last place. -/
theorem roundDouble_near (p : Nat) :
    2 * roundDouble p ≤ 2 * p + 2 ^ ulpShift p p ∧
      2 * p ≤ 2 * roundDouble p + 2 ^ ulpShift p p := by
  unfold roundDouble
  simp only []
  generalize ulpShift p p = s
  have hd := Nat.div_add_mod p (2 ^ s)
  have hm : p % 2 ^ s < 2 ^ s := Nat.mod_lt p (by positivity)
  generalize 2 ^ s = t at *
  generalize p / t = q at *
  generalize p % t = r at *
  have e1 : (q + 1) * t = t * q + t := by ring
  have e2 : q * t = t * q := by ring
  generalize t * q = u at *
  split_ifs with hc
  · rw [e1]; omega
  · rw [e2]; omega

/-- Below `2^32` (scaled: below `2^84`) the rounding error is at most
`2^-22` (scaled: `2^30`). -/
theorem roundDouble_near_small (p : Nat) (hp : p < 19342813113834066795298816) :
    roundDouble p ≤ p + 1073741824 ∧ p ≤ roundDouble p + 1073741824 := by
  have h := roundDouble_near p
  have hs : ulpShift p p ≤ 31 := ulpShift_le p p 31 (by norm_num; omega)
  have ht : 2 ^ ulpShift p p ≤ 2 ^ 31 := Nat.pow_le_pow_right (by norm_num) hs
  norm_num at ht
  omega

theorem truncMul1005_mono (a b : Nat) (hab : a ≤ b) (hb : b < 2147483648) :
    truncMul1005 a ≤ truncMul1005 b := by
  unfold truncMul1005
  apply Nat.div_le_div_right
  rcases Nat.eq_or_lt_of_le hab with h | h
  · subst h; exact le_refl _
  · have ha := roundDouble_near_small (a * m1005) (by unfold m1005; omega)
    have hb2 := roundDouble_near_small (b * m1005) (by unfold m1005; omega)
    unfold m1005 at *
    omega

theorem truncMul1005_le (n : Nat) (hn : n < 2147483648) :
    truncMul1005 n ≤ n + n / 200 := by
  unfold truncMul1005
  have ha := roundDouble_near_small (n * m1005) (by unfold m1005; omega)
  unfold m1005 at *
  omega

theorem truncMul1005_max : truncMul1005 2136799649 = 2147483647 := by decide

theorem castMul1005_natCast (n : Nat) (hn : n ≤ 2136799649) :
    castMul1005 (n : Int) = some (truncMul1005 n : Int) := by
  have hle : truncMul1005 n ≤ 2147483647 := by
    have := truncMul1005_mono n 2136799649 hn (by norm_num)
    rw [truncMul1005_max] at this
    exact this
  unfold castMul1005
  rcases Nat.eq_zero_or_pos n with h0 | hpos
  · subst h0
    have : truncMul1005 0 = 0 := by decide
    simp [this]
  · have hs : (n : Int).sign = 1 := Int.sign_eq_one_of_pos (by exact_mod_cast hpos)
    simp only [hs, Int.natAbs_ofNat, one_mul]
    rw [if_pos]
    constructor <;> omega

theorem LZ4_MaxCompressedSize_natCast (n : Nat) (hn : n ≤ 2136799649) :
    LZ4_MaxCompressedSize (n : Int) = some ((max (truncMul1005 n) (n + 8) : Nat) : Int) := by
  unfold LZ4_MaxCompressedSize
  rw [castMul1005_natCast n hn]
  simp only []
  rw [if_pos (by omega)]
  congr 1
  omega

theorem maxCompressedLength_small (n : Nat) (hn : n ≤ 2136799649) :
    Lz4CompressStream.maxCompressedLength n = some (max (truncMul1005 n) (n + 8)) := by
  unfold Lz4CompressStream.maxCompressedLength
  rw [toInt32_of_range _ (by omega) (by omega), LZ4_MaxCompressedSize_natCast n hn]
  simp only [Option.map_some']
  congr 1
  unfold toUInt64
  have hle : truncMul1005 n ≤ 2147483647 := by
    have := truncMul1005_mono n 2136799649 hn (by norm_num)
    rw [truncMul1005_max] at this
    exact this
  omega

theorem decompress_maxCompressedLength_eq (n : Nat) :
    Lz4DecompressStream.maxCompressedLength n = Lz4CompressStream.maxCompressedLength n := rfl

theorem readMem_length (m : Mem) (n : Nat) : (readMem m n).length = n := by
  simp [readMem]

theorem readMem_add (m : Mem) (a b : Nat) :
    readMem m (a + b) = readMem m a ++ readMem (fun i => m (a + i)) b := by
  unfold readMem
  rw [List.range_add, List.map_append, List.map_map]
  rfl

theorem readMem_congr (m1 m2 : Mem) (n : Nat) (h : ∀ i, i < n → m1 i = m2 i) :
    readMem m1 n = readMem m2 n := by
  unfold readMem
  apply List.map_congr_left
  intro i hi
  exact h i (List.mem_range.mp hi)

theorem be32_length (v : Nat) : (be32 v).length = 4 := rfl

theorem storeBytes_of_lt (m : Mem) (off : Nat) (bs : List Byte) (i : Nat) (h : i < off) :
    storeBytes m off bs i = m i := by
  unfold storeBytes
  rw [if_neg (by omega)]

theorem storeBytes_of_ge (m : Mem) (off : Nat) (bs : List Byte) (i : Nat)
    (h : off + bs.length ≤ i) : storeBytes m off bs i = m i := by
  unfold storeBytes
  split_ifs with h1
  · rw [List.get?_eq_none.mpr (by omega)]
    rfl
  · rfl

theorem readMem_storeBytes_zero (m : Mem) (bs : List Byte) :
    readMem (storeBytes m 0 bs) bs.length = bs := by
  apply List.ext_get
  · simp [readMem]
  · intro i h1 h2
    simp [readMem, storeBytes, List.getElem?_eq_getElem h2]

/-- The eight header bytes after the two `uint32_t` stores. -/
theorem header_bytes (E : Env) (hb : HostToNetwork E) (m : Mem) (a b : Nat)
    (ha : a < 4294967296) (hb2 : b < 4294967296) :
    readMem (storeU32 E.host (storeU32 E.host m 0 (E.bswap a)) 1 (E.bswap b)) 8 =
      be32 a ++ be32 b := by
  unfold storeU32
  rw [hb a ha, hb b hb2]
  have h8 : ∀ f : Mem, readMem f 8 = [f 0, f 1, f 2, f 3, f 4, f 5, f 6, f 7] := fun _ => rfl
  rw [h8]
  simp [storeBytes, be32]

theorem payload_bytes (host : Endianness) (m : Mem) (x y : Nat) (i : Nat) (h : 8 ≤ i) :
    storeU32 host (storeU32 host m 0 x) 1 y i = m i := by
  have hl : ∀ v, (hostBytes host v).length = 4 := by
    intro v; cases host <;> rfl
  unfold storeU32
  rw [storeBytes_of_ge _ _ _ _ (by rw [hl]; omega), storeBytes_of_ge _ _ _ _ (by rw [hl]; omega)]

/-- A call on which the primitive reports `ret > 0` succeeds, appends one
frame to the sink and adds its size to the counter. -/
theorem compressOneBlock_of_pos (E : Env) (s : Lz4CompressStream) (buff : List Byte)
    (length : Nat) (hb : HostToNetwork E) (hlen : length < 4294967296)
    (hret : 0 < toInt32 (E.LZ4_compress buff (fun i => s._tempBuffer (i + 8)) (toInt32 length)).1) :
    (Lz4CompressStream.compressOneBlock E s buff length).1 = .ok () ∧
    (Lz4CompressStream.compressOneBlock E s buff length).2._stream =
      s._stream ++
        [be32 length ++
          be32 (toInt32 (E.LZ4_compress buff (fun i => s._tempBuffer (i + 8))
            (toInt32 length)).1).toNat ++
          readMem (E.LZ4_compress buff (fun i => s._tempBuffer (i + 8)) (toInt32 length)).2
            (toInt32 (E.LZ4_compress buff (fun i => s._tempBuffer (i + 8))
              (toInt32 length)).1).toNat] ∧
    (Lz4CompressStream.compressOneBlock E s buff length).2._compressedBytesWritten =
      s._compressedBytesWritten +
        ((toInt32 (E.LZ4_compress buff (fun i => s._tempBuffer (i + 8))
          (toInt32 length)).1).toNat + 8) := by
  unfold Lz4CompressStream.compressOneBlock
  simp only []
  rw [if_pos hret]
  refine ⟨rfl, ?_, rfl⟩
  simp only []
  congr 2
  generalize E.LZ4_compress buff (fun i => s._tempBuffer (i + 8)) (toInt32 length) = r at *
  have hbd := toInt32_bounds r.1
  generalize toInt32 r.1 = ret at *
  have hc : ret.toNat % 4294967296 = ret.toNat := by omega
  rw [hc, Nat.add_comm ret.toNat 8, readMem_add, header_bytes E hb _ _ _ hlen (by omega)]
  congr 1
  apply readMem_congr
  intro i _
  rw [payload_bytes _ _ _ _ _ (by omega)]
  simp

/-- A call on which the primitive reports `ret ≤ 0` throws and leaves the sink
and the counter alone. -/
theorem compressOneBlock_of_nonpos (E : Env) (s : Lz4CompressStream) (buff : List Byte)
    (length : Nat)
    (hret : toInt32 (E.LZ4_compress buff (fun i => s._tempBuffer (i + 8)) (toInt32 length)).1 ≤ 0) :
    (Lz4CompressStream.compressOneBlock E s buff length).1 =
      .error (.IOException "compress LZ4 failed") ∧
    (Lz4CompressStream.compressOneBlock E s buff length).2._stream = s._stream ∧
    (Lz4CompressStream.compressOneBlock E s buff length).2._compressedBytesWritten =
      s._compressedBytesWritten := by
  unfold Lz4CompressStream.compressOneBlock
  simp only []
  rw [if_neg (by omega)]
  exact ⟨rfl, rfl, rfl⟩

theorem byteSwap32_bytes (a b c d : Nat) (ha : a < 256) (hb : b < 256) (hc : c < 256)
    (hd : d < 256) :
    (a * 16777216 + b * 65536 + c * 256 + d) % 256 = d ∧
    (a * 16777216 + b * 65536 + c * 256 + d) / 256 % 256 = c ∧
    (a * 16777216 + b * 65536 + c * 256 + d) / 65536 % 256 = b ∧
    (a * 16777216 + b * 65536 + c * 256 + d) / 16777216 % 256 = a := by
  omega

theorem reverse_be32_byteSwap32 (v : Nat) : (be32 (byteSwap32 v)).reverse = be32 v := by
  obtain ⟨h0, h1, h2, h3⟩ := byteSwap32_bytes (v % 256) (v / 256 % 256) (v / 65536 % 256)
    (v / 16777216 % 256) (Nat.mod_lt _ (by norm_num)) (Nat.mod_lt _ (by norm_num))
    (Nat.mod_lt _ (by norm_num)) (Nat.mod_lt _ (by norm_num))
  unfold be32 byteSwap32
  simp only [List.reverse_cons, List.reverse_nil, List.nil_append, List.cons_append,
    List.cons.injEq, and_true]
  refine ⟨?_, ?_, ?_, ?_⟩ <;> apply Fin.ext <;> simp only [Fin.ofNat]
  · rw [h0]
  · rw [h1]
  · rw [h2]
  · rw [h3]

theorem byteSwap32_hostToNetwork : HostToNetwork storedEnv := by
  intro v _
  exact reverse_be32_byteSwap32 v

/-- On a big-endian host the identity is a host-to-network conversion. -/
theorem identity_hostToNetwork (c : List Byte → Mem → Int → Int × Mem)
    (u : Mem → Mem → Int → Int × Mem) : HostToNetwork ⟨.big, fun v => v, c, u⟩ := by
  intro v _
  rfl

/-- The size of the one write a successful call makes. -/
theorem compressOneBlock_write_size (E : Env) (s : Lz4CompressStream) (buff : List Byte)
    (length : Nat)
    (hret : 0 < toInt32 (E.LZ4_compress buff (fun i => s._tempBuffer (i + 8)) (toInt32 length)).1) :
    (Lz4CompressStream.compressOneBlock E s buff length).1 = .ok () ∧
    (∃ frame : List Byte,
      (Lz4CompressStream.compressOneBlock E s buff length).2._stream = s._stream ++ [frame] ∧
      frame.length =
        8 + (toInt32 (E.LZ4_compress buff (fun i => s._tempBuffer (i + 8))
          (toInt32 length)).1).toNat) ∧
    (Lz4CompressStream.compressOneBlock E s buff length).2._compressedBytesWritten =
      s._compressedBytesWritten +
        (8 + (toInt32 (E.LZ4_compress buff (fun i => s._tempBuffer (i + 8))
          (toInt32 length)).1).toNat) := by
  unfold Lz4CompressStream.compressOneBlock
  simp only []
  rw [if_pos hret]
  refine ⟨rfl, ⟨_, rfl, ?_⟩, ?_⟩
  · rw [readMem_length, Nat.add_comm]
  · simp only []
    rw [Nat.add_comm 8]

/-- C5. `compressOneBlock` throws exactly when the compress primitive returns
a non-positive `int`; a call that throws writes nothing to the sink and leaves
`_compressedBytesWritten` alone; a call that returns makes one write of
`8 + ret` bytes and adds `8 + ret` to `_compressedBytesWritten`. -/
theorem compressOneBlock_all_or_nothing (E : Env) (s : Lz4CompressStream)
    (buff : List Byte) (length : Nat) :
    ((Lz4CompressStream.compressOneBlock E s buff length).1 =
        .error (.IOException "compress LZ4 failed") ↔
      toInt32 (E.LZ4_compress buff (fun i => s._tempBuffer (i + 8)) (toInt32 length)).1 ≤ 0) ∧
    ((Lz4CompressStream.compressOneBlock E s buff length).1 = .ok () ↔
      0 < toInt32 (E.LZ4_compress buff (fun i => s._tempBuffer (i + 8)) (toInt32 length)).1) ∧
    (if toInt32 (E.LZ4_compress buff (fun i => s._tempBuffer (i + 8)) (toInt32 length)).1 ≤ 0
      then
        (Lz4CompressStream.compressOneBlock E s buff length).2._stream = s._stream ∧
        (Lz4CompressStream.compressOneBlock E s buff length).2._compressedBytesWritten =
          s._compressedBytesWritten
      else
        (∃ frame : List Byte,
          (Lz4CompressStream.compressOneBlock E s buff length).2._stream =
            s._stream ++ [frame] ∧
          frame.length =
            8 + (toInt32 (E.LZ4_compress buff (fun i => s._tempBuffer (i + 8))
              (toInt32 length)).1).toNat) ∧
        (Lz4CompressStream.compressOneBlock E s buff length).2._compressedBytesWritten =
          s._compressedBytesWritten +
            (8 + (toInt32 (E.LZ4_compress buff (fun i => s._tempBuffer (i + 8))
              (toInt32 length)).1).toNat)) := by
  by_cases h : toInt32 (E.LZ4_compress buff (fun i => s._tempBuffer (i + 8)) (toInt32 length)).1 ≤ 0
  · obtain ⟨h1, h2, h3⟩ := compressOneBlock_of_nonpos E s buff length h
    rw [if_pos h]
    refine ⟨⟨fun _ => h, fun _ => h1⟩, ⟨fun hk => ?_, fun hp => absurd hp (by omega)⟩, h2, h3⟩
    rw [h1] at hk
    cases hk
  · obtain ⟨h1, h2, h3⟩ := compressOneBlock_write_size E s buff length (by omega)
    rw [if_neg h]
    refine ⟨⟨fun hk => ?_, fun hp => absurd hp h⟩, ⟨fun _ => by omega, fun _ => h1⟩, h2, h3⟩
    rw [h1] at hk
    cases hk

/-- C2. On every host whose `bswap` is the host-to-network conversion, a block
on which the compress primitive returns `ret > 0` makes `compressOneBlock`
return after exactly one write to the sink, of exactly `8 + ret` bytes: the
`uint32_t` `length` most significant byte first, then `ret` most significant
byte first, then the first `ret` bytes the primitive left in its destination. -/
theorem compressOneBlock_frame_layout (E : Env) (s : Lz4CompressStream) (buff : List Byte)
    (length : Nat) (hb : HostToNetwork E) (hlen : length < 4294967296)
    (hret : 0 < toInt32 (E.LZ4_compress buff (fun i => s._tempBuffer (i + 8)) (toInt32 length)).1) :
    (Lz4CompressStream.compressOneBlock E s buff length).1 = .ok () ∧
    ∃ frame : List Byte,
      (Lz4CompressStream.compressOneBlock E s buff length).2._stream = s._stream ++ [frame] ∧
      frame.length =
        8 + (toInt32 (E.LZ4_compress buff (fun i => s._tempBuffer (i + 8))
          (toInt32 length)).1).toNat ∧
      frame.take 4 = be32 length ∧
      (frame.drop 4).take 4 =
        be32 (toInt32 (E.LZ4_compress buff (fun i => s._tempBuffer (i + 8))
          (toInt32 length)).1).toNat ∧
      frame.drop 8 =
        readMem (E.LZ4_compress buff (fun i => s._tempBuffer (i + 8)) (toInt32 length)).2
          (toInt32 (E.LZ4_compress buff (fun i => s._tempBuffer (i + 8))
            (toInt32 length)).1).toNat := by
  obtain ⟨h1, h2, _⟩ := compressOneBlock_of_pos E s buff length hb hlen hret
  refine ⟨h1, _, h2, ?_, ?_, ?_, ?_⟩
  · simp [be32_length, readMem_length]; omega
  · simp [be32]
  · simp [be32]
  · simp [be32]

/-- Witness for C2: the stand-in codec on a little-endian host framing the
block `[1, 2, 3]`. -/
theorem compressOneBlock_frame_layout_witness :
    0 < toInt32 (storedEnv.LZ4_compress [1, 2, 3] (fun _ => 0) (toInt32 (3 : Nat))).1 ∧
    (Lz4CompressStream.compressOneBlock storedEnv ⟨[], fun _ => 0, 72, 0⟩ [1, 2, 3] 3).1 =
      .ok () ∧
    ∃ frame : List Byte,
      (Lz4CompressStream.compressOneBlock storedEnv ⟨[], fun _ => 0, 72, 0⟩ [1, 2, 3]
        3).2._stream = [] ++ [frame] ∧
      frame.length =
        8 + (toInt32 (storedEnv.LZ4_compress [1, 2, 3] (fun _ => 0)
          (toInt32 (3 : Nat))).1).toNat ∧
      frame.take 4 = be32 3 ∧
      (frame.drop 4).take 4 =
        be32 (toInt32 (storedEnv.LZ4_compress [1, 2, 3] (fun _ => 0)
          (toInt32 (3 : Nat))).1).toNat ∧
      frame.drop 8 =
        readMem (storedEnv.LZ4_compress [1, 2, 3] (fun _ => 0) (toInt32 (3 : Nat))).2
          (toInt32 (storedEnv.LZ4_compress [1, 2, 3] (fun _ => 0)
            (toInt32 (3 : Nat))).1).toNat :=
  ⟨by decide,
    compressOneBlock_frame_layout storedEnv ⟨[], fun _ => 0, 72, 0⟩ [1, 2, 3] 3
      byteSwap32_hostToNetwork (by norm_num) (by decide)⟩

/-- The capacity `_tempBufferSize` after one call. -/
theorem decompressOneBlock_capacity (E : Env) (reallocOk : Bool) (s : Lz4DecompressStream)
    (compressedSize : Nat) (buff : Mem) (length : Nat) :
    (Lz4DecompressStream.decompressOneBlock E reallocOk s compressedSize buff
      length).2.1._tempBufferSize =
      if compressedSize > s._tempBufferSize ∧ reallocOk = false then s._tempBufferSize
      else max s._tempBufferSize compressedSize := by
  unfold Lz4DecompressStream.decompressOneBlock
  by_cases h : compressedSize > s._tempBufferSize ∧ reallocOk = false
  · simp only [if_pos h]
  · simp only [if_neg h]
    by_cases h2 : compressedSize > s._tempBufferSize
    · have hm : max s._tempBufferSize compressedSize = compressedSize := by omega
      simp only [if_pos h2, hm]
      split_ifs <;> simp only []
    · have hm : max s._tempBufferSize compressedSize = s._tempBufferSize := by omega
      simp only [if_neg h2, hm]
      split_ifs <;> simp only []

/-- A call throws `OutOfMemoryException` exactly when it needs a larger buffer
and `realloc` returns none. -/
theorem decompressOneBlock_oom_iff (E : Env) (reallocOk : Bool) (s : Lz4DecompressStream)
    (compressedSize : Nat) (buff : Mem) (length : Nat) :
    (Lz4DecompressStream.decompressOneBlock E reallocOk s compressedSize buff length).1 =
        .error (.OutOfMemoryException "realloc failed") ↔
      (compressedSize > s._tempBufferSize ∧ reallocOk = false) := by
  unfold Lz4DecompressStream.decompressOneBlock
  by_cases h : compressedSize > s._tempBufferSize ∧ reallocOk = false
  · simp only [if_pos h, true_iff]
    exact h
  · simp only [if_neg h]
    refine ⟨fun hk => ?_, fun hk => absurd hk h⟩
    split_ifs at hk <;> simp at hk

theorem runCalls_capacity_le (E : Env) (cs : List Call) :
    ∀ s : Lz4DecompressStream,
      s._tempBufferSize ≤ (Lz4DecompressStream.runCalls E s cs)._tempBufferSize := by
  induction cs with
  | nil => intro s; exact le_refl _
  | cons c cs ih =>
    intro s
    unfold Lz4DecompressStream.runCalls
    refine le_trans ?_ (ih _)
    rw [decompressOneBlock_capacity]
    split_ifs
    · exact le_refl _
    · exact le_max_left _ _

theorem runCalls_append (E : Env) (pre post : List Call) :
    ∀ s : Lz4DecompressStream,
      Lz4DecompressStream.runCalls E s (pre ++ post) =
        Lz4DecompressStream.runCalls E (Lz4DecompressStream.runCalls E s pre) post := by
  induction pre with
  | nil => intro s; simp only [List.nil_append, Lz4DecompressStream.runCalls]
  | cons c cs ih =>
    intro s
    simp only [List.cons_append, Lz4DecompressStream.runCalls]
    exact ih _

/-- A call that gets its buffer and whose source runs short: the whole result. -/
theorem decompressOneBlock_short (E : Env) (reallocOk : Bool) (s : Lz4DecompressStream)
    (compressedSize : Nat) (buff : Mem) (length : Nat)
    (halloc : compressedSize ≤ s._tempBufferSize ∨ reallocOk = true)
    (hshort : s._stream.length < compressedSize) :
    Lz4DecompressStream.decompressOneBlock E reallocOk s compressedSize buff length =
      (.error (.IOException "readFully reach EOF"),
        { _stream := s._stream.drop compressedSize
          _tempBuffer := storeBytes s._tempBuffer 0 (s._stream.take compressedSize)
          _tempBufferSize := max s._tempBufferSize compressedSize
          _compressedBytesRead := s._compressedBytesRead },
        buff) := by
  have hno : ¬ (compressedSize > s._tempBufferSize ∧ reallocOk = false) := by
    rintro ⟨h1, h2⟩
    rcases halloc with h | h
    · omega
    · rw [h2] at h; cases h
  have hrd : toUInt32 (toInt32 ((s._stream.take compressedSize).length : Nat)) ≠
      compressedSize := by
    rw [toUInt32_toInt32, toUInt32_natCast, List.length_take]
    have := Nat.mod_le (min compressedSize s._stream.length) 4294967296
    omega
  unfold Lz4DecompressStream.decompressOneBlock readFully
  simp only [if_neg hno]
  by_cases h2 : compressedSize > s._tempBufferSize
  · have hm : max s._tempBufferSize compressedSize = compressedSize := by omega
    simp only [if_pos h2, hm, if_pos hrd]
  · have hm : max s._tempBufferSize compressedSize = s._tempBufferSize := by omega
    simp only [if_neg h2, hm, if_pos hrd]

/-- C3. A `decompressOneBlock` call that gets its buffer and whose source holds
fewer than `compressedSize` bytes throws the `IOException` of the `readFully`
check; the count `_compressedBytesRead` and the caller's destination are left
as they were, and the outcome is the same whatever the primitives are, so
`LZ4_uncompress` has no part in it. -/
theorem decompressOneBlock_truncated (E : Env) (reallocOk : Bool) (s : Lz4DecompressStream)
    (compressedSize : Nat) (buff : Mem) (length : Nat)
    (halloc : compressedSize ≤ s._tempBufferSize ∨ reallocOk = true)
    (hshort : s._stream.length < compressedSize) :
    (Lz4DecompressStream.decompressOneBlock E reallocOk s compressedSize buff length).1 =
      .error (.IOException "readFully reach EOF") ∧
    (Lz4DecompressStream.decompressOneBlock E reallocOk s compressedSize buff
      length).2.1._compressedBytesRead = s._compressedBytesRead ∧
    (Lz4DecompressStream.decompressOneBlock E reallocOk s compressedSize buff length).2.2 =
      buff ∧
    ∀ E2 : Env,
      Lz4DecompressStream.decompressOneBlock E2 reallocOk s compressedSize buff length =
        Lz4DecompressStream.decompressOneBlock E reallocOk s compressedSize buff length := by
  refine ⟨?_, ?_, ?_, fun E2 => ?_⟩
  · simp only [decompressOneBlock_short E reallocOk s compressedSize buff length halloc hshort]
  · simp only [decompressOneBlock_short E reallocOk s compressedSize buff length halloc hshort]
  · simp only [decompressOneBlock_short E reallocOk s compressedSize buff length halloc hshort]
  · simp only [decompressOneBlock_short E reallocOk s compressedSize buff length halloc hshort,
      decompressOneBlock_short E2 reallocOk s compressedSize buff length halloc hshort]

/-- Witness for C3: a source of two bytes asked for a payload of five. -/
theorem decompressOneBlock_truncated_witness :
    (5 ≤ 8 ∨ true = true) ∧ ([7, 7] : List Byte).length < 5 ∧
    (Lz4DecompressStream.decompressOneBlock storedEnv true ⟨[7, 7], fun _ => 0, 8, 0⟩ 5
      (fun _ => 0) 3).1 = .error (.IOException "readFully reach EOF") ∧
    (Lz4DecompressStream.decompressOneBlock storedEnv true ⟨[7, 7], fun _ => 0, 8, 0⟩ 5
      (fun _ => 0) 3).2.1._compressedBytesRead = 0 ∧
    (Lz4DecompressStream.decompressOneBlock storedEnv true ⟨[7, 7], fun _ => 0, 8, 0⟩ 5
      (fun _ => 0) 3).2.2 = (fun _ => 0) ∧
    ∀ E2 : Env,
      Lz4DecompressStream.decompressOneBlock E2 true ⟨[7, 7], fun _ => 0, 8, 0⟩ 5
        (fun _ => 0) 3 =
        Lz4DecompressStream.decompressOneBlock storedEnv true ⟨[7, 7], fun _ => 0, 8, 0⟩ 5
          (fun _ => 0) 3 :=
  ⟨Or.inl (by decide), by decide,
    decompressOneBlock_truncated storedEnv true ⟨[7, 7], fun _ => 0, 8, 0⟩ 5 (fun _ => 0) 3
      (Or.inl (by decide)) (by decide)⟩

/-- A call that gets its buffer and whose source holds the whole payload: the
result is decided by the comparison `ret == compressedSize` alone. -/
theorem decompressOneBlock_read (E : Env) (reallocOk : Bool) (s : Lz4DecompressStream)
    (compressedSize : Nat) (buff : Mem) (length : Nat)
    (halloc : compressedSize ≤ s._tempBufferSize ∨ reallocOk = true)
    (hsz : compressedSize < 4294967296)
    (hfull : compressedSize ≤ s._stream.length) :
    Lz4DecompressStream.decompressOneBlock E reallocOk s compressedSize buff length =
      (if toUInt32 (toInt32 (E.LZ4_uncompress
            (storeBytes s._tempBuffer 0 (s._stream.take compressedSize)) buff
            (toInt32 length)).1) = compressedSize
        then .ok length else .error (.IOException "decompress LZ4 failed"),
        { _stream := s._stream.drop compressedSize
          _tempBuffer := storeBytes s._tempBuffer 0 (s._stream.take compressedSize)
          _tempBufferSize := max s._tempBufferSize compressedSize
          _compressedBytesRead := s._compressedBytesRead + toInt32 (compressedSize : Nat) },
        (E.LZ4_uncompress (storeBytes s._tempBuffer 0 (s._stream.take compressedSize)) buff
          (toInt32 length)).2) := by
  have hno : ¬ (compressedSize > s._tempBufferSize ∧ reallocOk = false) := by
    rintro ⟨h1, h2⟩
    rcases halloc with h | h
    · omega
    · rw [h2] at h; cases h
  have hl : (s._stream.take compressedSize).length = compressedSize := by
    rw [List.length_take]; omega
  have hrd : ¬ (toUInt32 (toInt32 (compressedSize : Nat)) ≠ compressedSize) := by
    rw [toUInt32_toInt32, toUInt32_natCast]
    have := Nat.mod_eq_of_lt hsz
    omega
  unfold Lz4DecompressStream.decompressOneBlock readFully
  simp only [if_neg hno]
  by_cases h2 : compressedSize > s._tempBufferSize
  · have hm : max s._tempBufferSize compressedSize = compressedSize := by omega
    simp only [if_pos h2, hm, hl, if_neg hrd]
    split_ifs <;> simp only []
  · have hm : max s._tempBufferSize compressedSize = s._tempBufferSize := by omega
    simp only [if_neg h2, hm, hl, if_neg hrd]
    split_ifs <;> simp only []

/-- Below `2^31` the comparison is exact: the call returns, and then returns
`length`, exactly when the primitive's `int` result equals `compressedSize`. -/
theorem decompressOneBlock_detects_below_2_31 (E : Env) (reallocOk : Bool)
    (s : Lz4DecompressStream) (compressedSize : Nat) (buff : Mem) (length : Nat)
    (halloc : compressedSize ≤ s._tempBufferSize ∨ reallocOk = true)
    (hsz : compressedSize < 2147483648)
    (hfull : compressedSize ≤ s._stream.length) :
    (Lz4DecompressStream.decompressOneBlock E reallocOk s compressedSize buff length).1 =
      if toInt32 (E.LZ4_uncompress
            (storeBytes s._tempBuffer 0 (s._stream.take compressedSize)) buff
            (toInt32 length)).1 = (compressedSize : Int)
        then .ok length else .error (.IOException "decompress LZ4 failed") := by
  rw [decompressOneBlock_read E reallocOk s compressedSize buff length halloc (by omega) hfull]
  simp only []
  generalize E.LZ4_uncompress (storeBytes s._tempBuffer 0 (s._stream.take compressedSize)) buff
    (toInt32 length) = u
  have hb := toInt32_bounds u.1
  have hiff : toUInt32 (toInt32 u.1) = compressedSize ↔ toInt32 u.1 = (compressedSize : Int) := by
    unfold toUInt32
    omega
  by_cases h : toInt32 u.1 = (compressedSize : Int)
  · simp only [if_pos h, if_pos (hiff.mpr h)]
  · simp only [if_neg h, if_neg (fun hk => h (hiff.mp hk))]

theorem replicate_payload_length :
    4294967295 ≤
      (⟨List.replicate 4294967295 0, fun _ => 0, 4294967295, 0⟩ :
        Lz4DecompressStream)._stream.length := by
  simp only [List.length_replicate, le_refl]

theorem decompressOneBlock_accepts_malformed :
    toInt32 (malformedEnv.LZ4_uncompress (fun _ => 0) (fun _ => 0) (toInt32 (16 : Nat))).1 = -1 ∧
    (Lz4DecompressStream.decompressOneBlock malformedEnv true
      ⟨List.replicate 4294967295 0, fun _ => 0, 4294967295, 0⟩ 4294967295 (fun _ => 0) 16).1 =
      .ok 16 := by
  refine ⟨by decide, ?_⟩
  have h := decompressOneBlock_read malformedEnv true
    ⟨List.replicate 4294967295 0, fun _ => 0, 4294967295, 0⟩ 4294967295 (fun _ => 0) 16
    (Or.inr rfl) (by norm_num) replicate_payload_length
  have hc : ∀ m : Mem,
      toUInt32 (toInt32 (malformedEnv.LZ4_uncompress m (fun _ => 0) (toInt32 (16 : Nat))).1) =
        4294967295 := by
    intro m
    show toUInt32 (toInt32 (-1)) = 4294967295
    decide
  simp only [h, if_pos (hc _)]

/-- C7 (counterexample). A stream of capacity 4 is asked for a payload of 10
bytes and `realloc` returns none: the call throws `OutOfMemoryException` and
the capacity stays 4, below the `compressedSize` just passed and different
from `max 4 10`. -/
theorem capacity_unchanged_when_realloc_fails :
    (Lz4DecompressStream.decompressOneBlock storedEnv false ⟨[], fun _ => 0, 4, 0⟩ 10
      (fun _ => 0) 0).1 = .error (.OutOfMemoryException "realloc failed") ∧
    (Lz4DecompressStream.decompressOneBlock storedEnv false ⟨[], fun _ => 0, 4, 0⟩ 10
      (fun _ => 0) 0).2.1._tempBufferSize = 4 ∧
    ¬ (10 ≤ (Lz4DecompressStream.decompressOneBlock storedEnv false ⟨[], fun _ => 0, 4, 0⟩ 10
      (fun _ => 0) 0).2.1._tempBufferSize) ∧
    (Lz4DecompressStream.decompressOneBlock storedEnv false ⟨[], fun _ => 0, 4, 0⟩ 10
      (fun _ => 0) 0).2.1._tempBufferSize ≠ max 4 10 := by
  refine ⟨?_, ?_, ?_, ?_⟩
  · rw [decompressOneBlock_oom_iff]
    decide
  · rw [decompressOneBlock_capacity]
    decide
  · rw [decompressOneBlock_capacity]
    decide
  · rw [decompressOneBlock_capacity]
    decide

/-- C7 (amended). Over every sequence of `decompressOneBlock` calls on one
stream, calls that throw included, `_tempBufferSize` never decreases. A call
throws `OutOfMemoryException` exactly when `compressedSize` exceeds the
capacity and `realloc` returns none, and then leaves the capacity as it was;
every other call leaves the capacity at `max` of the old capacity and
`compressedSize`, and from then on the capacity is at least that
`compressedSize`. -/
theorem decompress_capacity_growth (E : Env) (s : Lz4DecompressStream) (pre : List Call)
    (c : Call) (post : List Call) :
    s._tempBufferSize ≤ (Lz4DecompressStream.runCalls E s pre)._tempBufferSize ∧
    (Lz4DecompressStream.runCalls E s pre)._tempBufferSize ≤
      (Lz4DecompressStream.decompressOneBlock E c.reallocOk (Lz4DecompressStream.runCalls E s pre)
        c.compressedSize c.buff c.length).2.1._tempBufferSize ∧
    (Lz4DecompressStream.decompressOneBlock E c.reallocOk (Lz4DecompressStream.runCalls E s pre)
        c.compressedSize c.buff c.length).2.1._tempBufferSize ≤
      (Lz4DecompressStream.runCalls E s (pre ++ c :: post))._tempBufferSize ∧
    ((Lz4DecompressStream.decompressOneBlock E c.reallocOk (Lz4DecompressStream.runCalls E s pre)
        c.compressedSize c.buff c.length).1 = .error (.OutOfMemoryException "realloc failed") ↔
      (c.compressedSize > (Lz4DecompressStream.runCalls E s pre)._tempBufferSize ∧
        c.reallocOk = false)) ∧
    (if c.compressedSize > (Lz4DecompressStream.runCalls E s pre)._tempBufferSize ∧
        c.reallocOk = false
      then
        (Lz4DecompressStream.decompressOneBlock E c.reallocOk
          (Lz4DecompressStream.runCalls E s pre) c.compressedSize c.buff
          c.length).2.1._tempBufferSize =
          (Lz4DecompressStream.runCalls E s pre)._tempBufferSize
      else
        (Lz4DecompressStream.decompressOneBlock E c.reallocOk
          (Lz4DecompressStream.runCalls E s pre) c.compressedSize c.buff
          c.length).2.1._tempBufferSize =
          max (Lz4DecompressStream.runCalls E s pre)._tempBufferSize c.compressedSize ∧
        c.compressedSize ≤
          (Lz4DecompressStream.runCalls E s (pre ++ c :: post))._tempBufferSize) := by
  have hfin : (Lz4DecompressStream.decompressOneBlock E c.reallocOk
      (Lz4DecompressStream.runCalls E s pre) c.compressedSize c.buff
      c.length).2.1._tempBufferSize ≤
      (Lz4DecompressStream.runCalls E s (pre ++ c :: post))._tempBufferSize := by
    rw [runCalls_append]
    exact runCalls_capacity_le E post _
  have hcap := decompressOneBlock_capacity E c.reallocOk (Lz4DecompressStream.runCalls E s pre)
    c.compressedSize c.buff c.length
  refine ⟨runCalls_capacity_le E pre s, ?_, hfin, decompressOneBlock_oom_iff _ _ _ _ _ _, ?_⟩
  · rw [hcap]
    split_ifs
    · exact le_refl _
    · exact le_max_left _ _
  · by_cases h : c.compressedSize > (Lz4DecompressStream.runCalls E s pre)._tempBufferSize ∧
        c.reallocOk = false
    · rw [if_pos h] at hcap
      rw [if_pos h]
      exact hcap
    · rw [if_neg h] at hcap
      rw [if_neg h]
      refine ⟨hcap, ?_⟩
      rw [hcap] at hfin
      exact le_trans (le_max_right _ _) hfin

/-- C10 (counterexample). `5 ≤ 4294967296`, yet `maxCompressedLength` is 13 at
5 and 8 at 4294967296, which narrows to the `int32_t` 0; the same on both
streams. -/
theorem maxCompressedLength_not_monotone :
    (5 : Nat) ≤ 4294967296 ∧
    Lz4CompressStream.maxCompressedLength 5 = some 13 ∧
    Lz4CompressStream.maxCompressedLength 4294967296 = some 8 ∧
    Lz4DecompressStream.maxCompressedLength 5 = some 13 ∧
    Lz4DecompressStream.maxCompressedLength 4294967296 = some 8 ∧
    ¬ ((13 : Nat) ≤ 8) := by
  decide

/-- C10 (amended). On the lengths `LZ4_MaxCompressedSize` can bound without
leaving `int32_t`, `origLength ≤ 2136799649`, the bound is defined and
monotonic: for `a ≤ b ≤ 2136799649`, `maxCompressedLength a ≤
maxCompressedLength b`, on both streams. -/
theorem maxCompressedLength_mono_in_range (a b : Nat) (hab : a ≤ b) (hb : b ≤ 2136799649) :
    ∃ x y : Nat,
      Lz4CompressStream.maxCompressedLength a = some x ∧
      Lz4CompressStream.maxCompressedLength b = some y ∧
      Lz4DecompressStream.maxCompressedLength a = some x ∧
      Lz4DecompressStream.maxCompressedLength b = some y ∧
      x ≤ y := by
  have ha := maxCompressedLength_small a (le_trans hab hb)
  have hb2 := maxCompressedLength_small b hb
  refine ⟨_, _, ha, hb2, ?_, ?_, ?_⟩
  · rw [decompress_maxCompressedLength_eq]; exact ha
  · rw [decompress_maxCompressedLength_eq]; exact hb2
  · have := truncMul1005_mono a b hab (by omega)
    omega

/-- Witness for C10 (amended): the lengths 5 and 2000. -/
theorem maxCompressedLength_mono_in_range_witness :
    (5 : Nat) ≤ 2000 ∧ (2000 : Nat) ≤ 2136799649 ∧
    ∃ x y : Nat,
      Lz4CompressStream.maxCompressedLength 5 = some x ∧
      Lz4CompressStream.maxCompressedLength 2000 = some y ∧
      Lz4DecompressStream.maxCompressedLength 5 = some x ∧
      Lz4DecompressStream.maxCompressedLength 2000 = some y ∧
      x ≤ y :=
  ⟨by decide, by decide, maxCompressedLength_mono_in_range 5 2000 (by decide) (by decide)⟩

/-- C9 (counterexample). With hint 4 the frame buffer has 12 bytes; a block of
length 4 has the bound 12, and `8 + 12` does not fit. -/
theorem frame_buffer_too_small_for_full_block :
    (4 : Nat) ≤ 4 ∧
    Lz4CompressStream.maxCompressedLength 4 = some 12 ∧
    frameBufferSize 4 = 12 ∧
    ¬ (8 + 12 ≤ frameBufferSize 4) := by
  decide

/-- C9 (amended). With a frame buffer of `hint + 8` bytes, a block whose length
leaves room for the worst case inside the hint, `length + 8 ≤ hint` and
`length + length / 200 ≤ hint` (with `length ≤ 2136799649`, so that the bound
exists), has a staged frame that fits:
`8 + maxCompressedLength length ≤ _tempBufferSize`. -/
theorem frame_fits_when_bound_within_hint (hint length : Nat) (h8 : length + 8 ≤ hint)
    (h200 : length + length / 200 ≤ hint) (hlen : length ≤ 2136799649) :
    ∃ bound : Nat,
      Lz4CompressStream.maxCompressedLength length = some bound ∧
      8 + bound ≤ frameBufferSize hint := by
  refine ⟨_, maxCompressedLength_small length hlen, ?_⟩
  have := truncMul1005_le length (by omega)
  unfold frameBufferSize
  omega

/-- Witness for C9 (amended): a block of 100 bytes under the hint 128. -/
theorem frame_fits_when_bound_within_hint_witness :
    100 + 8 ≤ 128 ∧ 100 + 100 / 200 ≤ 128 ∧
    ∃ bound : Nat,
      Lz4CompressStream.maxCompressedLength 100 = some bound ∧
      8 + bound ≤ frameBufferSize 128 :=
  ⟨by decide, by decide,
    frame_fits_when_bound_within_hint 128 100 (by decide) (by decide) (by decide)⟩

/-- A block as long as the hint never fits the `hint + 8` frame buffer. -/
theorem full_block_never_fits (hint : Nat) (h : hint ≤ 2136799649) :
    ∃ bound : Nat,
      Lz4CompressStream.maxCompressedLength hint = some bound ∧
      frameBufferSize hint < 8 + bound := by
  refine ⟨_, maxCompressedLength_small hint h, ?_⟩
  unfold frameBufferSize
  omega

theorem decodeBE32_be32 (v : Nat) (hv : v < 4294967296) : decodeBE32 (be32 v) = v := by
  unfold decodeBE32 be32
  simp only [List.foldl, Fin.ofNat, Fin.val_mk]
  omega

theorem storedEnv_compress_result (src : List Byte) (dest : Mem) (isize : Int) :
    storedEnv.LZ4_compress src dest isize =
      (toInt32 ((src.length : Int) + 1), storeBytes dest 0 (0 :: src)) := rfl

/-- The writes of a successful `compressBlocks` run are frames of the blocks,
in order, appended to the sink. -/
theorem compressBlocks_frames (E : Env) (hb : HostToNetwork E) (bs : List (List Byte)) :
    ∀ s : Lz4CompressStream, (∀ b ∈ bs, b.length < 4294967296) →
      (Lz4CompressStream.compressBlocks E s bs).1 = .ok () →
      ∃ ws : List (List Byte),
        (Lz4CompressStream.compressBlocks E s bs).2._stream = s._stream ++ ws ∧
        List.Forall₂ (IsFrameOf E) bs ws := by
  induction bs with
  | nil =>
    intro s _ _
    exact ⟨[], by simp [Lz4CompressStream.compressBlocks], List.Forall₂.nil⟩
  | cons b bs ih =>
    intro s hlen hok
    have hbl : b.length < 4294967296 := hlen b (List.mem_cons_self _ _)
    unfold Lz4CompressStream.compressBlocks at hok ⊢
    by_cases hret : 0 < toInt32 (E.LZ4_compress b (fun i => s._tempBuffer (i + 8))
        (toInt32 b.length)).1
    · obtain ⟨h1, h2, _⟩ := compressOneBlock_of_pos E s b b.length hb hbl hret
      generalize Lz4CompressStream.compressOneBlock E s b b.length = out at h1 h2 hok ⊢
      obtain ⟨r, s1⟩ := out
      simp only [] at h1 h2
      subst h1
      simp only [] at hok ⊢
      obtain ⟨ws, hws, hfr⟩ := ih s1 (fun x hx => hlen x (List.mem_cons_of_mem _ hx)) hok
      refine ⟨_ :: ws, ?_, List.Forall₂.cons ⟨_, hret, rfl⟩ hfr⟩
      rw [hws, h2]
      simp
    · have h1 := (compressOneBlock_of_nonpos E s b b.length (by omega)).1
      generalize Lz4CompressStream.compressOneBlock E s b b.length = out at h1 hok
      obtain ⟨r, s1⟩ := out
      simp only [] at h1
      subst h1
      simp only [] at hok
      cases hok

theorem isFrameOf_length (E : Env) (b w : List Byte) (h : IsFrameOf E b w) : 8 ≤ w.length := by
  obtain ⟨dest, _, hw⟩ := h
  rw [hw]
  simp [be32_length]
  omega

theorem frames_length_le (E : Env) (bs ws : List (List Byte))
    (h : List.Forall₂ (IsFrameOf E) bs ws) : ws.length ≤ ws.flatten.length := by
  induction h with
  | nil => simp
  | cons hw _ ih =>
    have := isFrameOf_length E _ _ hw
    simp only [List.length_cons, List.flatten_cons, List.length_append]
    omega

theorem parseFrames_cons (fuel : Nat) (x : Byte) (xs : List Byte) :
    parseFrames (fuel + 1) (x :: xs) =
      if (x :: xs).length < 8 then none
      else
        if ((x :: xs).drop 8).length < decodeBE32 (((x :: xs).drop 4).take 4) then none
        else
          (parseFrames fuel
            (((x :: xs).drop 8).drop (decodeBE32 (((x :: xs).drop 4).take 4)))).map
            (fun frames =>
              (decodeBE32 ((x :: xs).take 4), decodeBE32 (((x :: xs).drop 4).take 4)) ::
                frames) := by
  rw [parseFrames]

/-- One step of the header walk over a well-formed frame. -/
theorem parseFrames_frame (fuel n c : Nat) (payload rest : List Byte) (hn : n < 4294967296)
    (hc : c < 4294967296) (hp : payload.length = c) :
    parseFrames (fuel + 1) (be32 n ++ be32 c ++ payload ++ rest) =
      (parseFrames fuel rest).map (fun frames => (n, c) :: frames) := by
  have e1 : be32 n ++ be32 c ++ payload ++ rest =
      Fin.ofNat (n / 16777216) :: (be32 n).tail ++ (be32 c ++ (payload ++ rest)) := by
    simp [be32]
  have t4 : (be32 n ++ (be32 c ++ (payload ++ rest))).take 4 = be32 n := by
    simp [be32]
  have d4 : ((be32 n ++ (be32 c ++ (payload ++ rest))).drop 4).take 4 = be32 c := by
    simp [be32]
  have d8 : (be32 n ++ (be32 c ++ (payload ++ rest))).drop 8 = payload ++ rest := by
    simp [be32]
  have l8 : ¬ (be32 n ++ (be32 c ++ (payload ++ rest))).length < 8 := by
    simp [be32]
  have e2 : Fin.ofNat (n / 16777216) :: (be32 n).tail ++ (be32 c ++ (payload ++ rest)) =
      be32 n ++ (be32 c ++ (payload ++ rest)) := by
    simp [be32]
  rw [e1]
  simp only [List.cons_append]
  rw [parseFrames_cons, ← List.cons_append, e2]
  simp only [if_neg l8, t4, d4, d8, decodeBE32_be32 n hn, decodeBE32_be32 c hc]
  have hr : ¬ (payload ++ rest).length < c := by
    simp [hp]
  have hd : (payload ++ rest).drop c = rest := by
    rw [← hp]; simp
  simp only [if_neg hr, hd]

theorem parseFrames_frames (E : Env) (bs ws : List (List Byte))
    (h : List.Forall₂ (IsFrameOf E) bs ws) :
    (∀ b ∈ bs, b.length < 4294967296) → ∀ fuel : Nat, ws.length ≤ fuel →
      ∃ frames : List (Nat × Nat),
        parseFrames fuel ws.flatten = some frames ∧
        frames.length = bs.length ∧
        frames.map Prod.fst = bs.map List.length := by
  induction h with
  | nil =>
    intro _ fuel _
    refine ⟨[], ?_, rfl, rfl⟩
    cases fuel <;> simp [parseFrames]
  | @cons b w bs ws hw _ ih =>
    intro hlen fuel hfuel
    obtain ⟨dest, hpos, hwe⟩ := hw
    have hbd := toInt32_bounds (E.LZ4_compress b dest (toInt32 b.length)).1
    cases fuel with
    | zero => simp at hfuel
    | succ fuel =>
      obtain ⟨frames, hpf, hl, hm⟩ := ih (fun x hx => hlen x (List.mem_cons_of_mem _ hx)) fuel
        (by simp at hfuel; omega)
      refine ⟨(b.length, (toInt32 (E.LZ4_compress b dest (toInt32 b.length)).1).toNat) :: frames,
        ?_, by simp [hl], by simp [hm]⟩
      rw [List.flatten_cons, hwe,
        parseFrames_frame fuel b.length _ _ _ (hlen b (List.mem_cons_self _ _)) (by omega)
          (readMem_length _ _), hpf]
      rfl

theorem sum_map_length_flatten (bs : List (List Byte)) :
    (bs.map List.length).sum = bs.flatten.length := by
  rw [List.length_flatten]

/-- C6. When `compressOneBlock` frames the blocks `b1..bn` one after another
into an empty sink and every call returns, the concatenated sink output
parses by its 8-byte headers alone into exactly `n` frames that end where the
bytes end, the `originalLength` fields are the block lengths in order, and
their sum is the number of bytes framed. -/
theorem framed_stream_self_describing (E : Env) (s : Lz4CompressStream)
    (bs : List (List Byte)) (hb : HostToNetwork E)
    (hlen : ∀ b ∈ bs, b.length < 4294967296) (hs : s._stream = [])
    (hok : (Lz4CompressStream.compressBlocks E s bs).1 = .ok ()) :
    ∃ frames : List (Nat × Nat),
      parseStream (Lz4CompressStream.compressBlocks E s bs).2._stream.flatten = some frames ∧
      frames.length = bs.length ∧
      frames.map Prod.fst = bs.map List.length ∧
      (frames.map Prod.fst).sum = bs.flatten.length := by
  obtain ⟨ws, hws, hfr⟩ := compressBlocks_frames E hb bs s hlen hok
  rw [hs, List.nil_append] at hws
  obtain ⟨frames, hp, hl, hm⟩ :=
    parseFrames_frames E bs ws hfr hlen ws.flatten.length (frames_length_le E bs ws hfr)
  refine ⟨frames, ?_, hl, hm, ?_⟩
  · rw [hws]
    exact hp
  · rw [hm]
    exact sum_map_length_flatten bs

/-- Witness for C6: the stand-in codec framing the blocks `[1, 2, 3]`,
`[4, 5]` and the empty block. -/
theorem framed_stream_self_describing_witness :
    (Lz4CompressStream.compressBlocks storedEnv ⟨[], fun _ => 0, 72, 0⟩
      [[1, 2, 3], [4, 5], []]).1 = .ok () ∧
    ∃ frames : List (Nat × Nat),
      parseStream (Lz4CompressStream.compressBlocks storedEnv ⟨[], fun _ => 0, 72, 0⟩
        [[1, 2, 3], [4, 5], []]).2._stream.flatten = some frames ∧
      frames.length = ([[1, 2, 3], [4, 5], []] : List (List Byte)).length ∧
      frames.map Prod.fst = ([[1, 2, 3], [4, 5], []] : List (List Byte)).map List.length ∧
      (frames.map Prod.fst).sum = ([[1, 2, 3], [4, 5], []] : List (List Byte)).flatten.length :=
  ⟨rfl,
    framed_stream_self_describing storedEnv ⟨[], fun _ => 0, 72, 0⟩ [[1, 2, 3], [4, 5], []]
      byteSwap32_hostToNetwork (by decide) rfl rfl⟩

theorem storeBytes_readMem_agree (m src : Mem) (c i : Nat) (hi : i < c) :
    storeBytes m 0 (readMem src c) i = src i := by
  unfold storeBytes readMem
  simp [hi]

/-- Reading one well-formed payload back: the call returns the block length,
consumes exactly the payload and leaves the block in the destination. -/
theorem decompressOneBlock_frame (E : Env) (hrt : LZ4RoundTrip E) (b : List Byte) (dest : Mem)
    (hbl : b.length < 4294967296)
    (hpos : 0 < toInt32 (E.LZ4_compress b dest (toInt32 b.length)).1)
    (d : Lz4DecompressStream) (rest : List Byte)
    (hd : d._stream =
      readMem (E.LZ4_compress b dest (toInt32 b.length)).2
        (toInt32 (E.LZ4_compress b dest (toInt32 b.length)).1).toNat ++ rest)
    (dst : Mem) :
    ∃ (d1 : Lz4DecompressStream) (dst1 : Mem),
      Lz4DecompressStream.decompressOneBlock E true d
        (toInt32 (E.LZ4_compress b dest (toInt32 b.length)).1).toNat dst b.length =
        (.ok b.length, d1, dst1) ∧
      d1._stream = rest ∧ readMem dst1 b.length = b := by
  have hbd := toInt32_bounds (E.LZ4_compress b dest (toInt32 b.length)).1
  have hlenp : (readMem (E.LZ4_compress b dest (toInt32 b.length)).2
      (toInt32 (E.LZ4_compress b dest (toInt32 b.length)).1).toNat).length =
      (toInt32 (E.LZ4_compress b dest (toInt32 b.length)).1).toNat := readMem_length _ _
  have htake : d._stream.take (toInt32 (E.LZ4_compress b dest (toInt32 b.length)).1).toNat =
      readMem (E.LZ4_compress b dest (toInt32 b.length)).2
        (toInt32 (E.LZ4_compress b dest (toInt32 b.length)).1).toNat := by
    rw [hd, List.take_left' hlenp]
  have hdrop : d._stream.drop (toInt32 (E.LZ4_compress b dest (toInt32 b.length)).1).toNat =
      rest := by
    rw [hd, List.drop_left' hlenp]
  have hfull : (toInt32 (E.LZ4_compress b dest (toInt32 b.length)).1).toNat ≤
      d._stream.length := by
    rw [hd, List.length_append, hlenp]
    omega
  have hread := decompressOneBlock_read E true d
    (toInt32 (E.LZ4_compress b dest (toInt32 b.length)).1).toNat dst b.length (Or.inr rfl)
    (by omega) hfull
  rw [htake, hdrop] at hread
  obtain ⟨hu1, hu2⟩ := hrt b dest hbl hpos
    (storeBytes d._tempBuffer 0 (readMem (E.LZ4_compress b dest (toInt32 b.length)).2
      (toInt32 (E.LZ4_compress b dest (toInt32 b.length)).1).toNat)) dst
    (fun i hi => storeBytes_readMem_agree _ _ _ i hi)
  have hcond : toUInt32 (toInt32 (E.LZ4_uncompress
      (storeBytes d._tempBuffer 0 (readMem (E.LZ4_compress b dest (toInt32 b.length)).2
        (toInt32 (E.LZ4_compress b dest (toInt32 b.length)).1).toNat)) dst
      (toInt32 b.length)).1) =
      (toInt32 (E.LZ4_compress b dest (toInt32 b.length)).1).toNat := by
    rw [hu1]
    unfold toUInt32
    omega
  simp only [if_pos hcond] at hread
  exact ⟨_, _, hread, rfl, hu2⟩

theorem decompressFrames_succ (E : Env) (reallocOk : Bool) (fuel : Nat)
    (s : Lz4DecompressStream) (dst : Mem) :
    Lz4DecompressStream.decompressFrames E reallocOk (fuel + 1) s dst =
      if s._stream.length = 0 then some (.ok ([], 0))
      else if s._stream.length < 8 then some (.error (.IOException "readFully reach EOF"))
      else
        match Lz4DecompressStream.decompressOneBlock E reallocOk
            { s with _stream := s._stream.drop 8 } (decodeBE32 ((s._stream.drop 4).take 4)) dst
            (decodeBE32 (s._stream.take 4)) with
        | (.error e, _, _) => some (.error e)
        | (.ok n, s1, dst1) =>
          match Lz4DecompressStream.decompressFrames E reallocOk fuel s1 dst1 with
          | some (.ok (bytes, total)) => some (.ok (readMem dst1 n ++ bytes, n + total))
          | other => other := by
  rw [Lz4DecompressStream.decompressFrames]

/-- Reading a sequence of well-formed frames back gives the blocks. -/
theorem decompressFrames_frames (E : Env) (hrt : LZ4RoundTrip E) (bs ws : List (List Byte))
    (h : List.Forall₂ (IsFrameOf E) bs ws) :
    (∀ b ∈ bs, b.length < 4294967296) → ∀ fuel : Nat, ws.length < fuel →
      ∀ (d : Lz4DecompressStream) (dst : Mem), d._stream = ws.flatten →
        Lz4DecompressStream.decompressFrames E true fuel d dst =
          some (.ok (bs.flatten, bs.flatten.length)) := by
  induction h with
  | nil =>
    intro _ fuel hfuel d dst hd
    cases fuel with
    | zero => simp at hfuel
    | succ fuel =>
      rw [decompressFrames_succ, hd]
      simp
  | @cons b w bs ws hw _ ih =>
    intro hlen fuel hfuel d dst hd
    obtain ⟨dest, hpos, hwe⟩ := hw
    have hbl : b.length < 4294967296 := hlen b (List.mem_cons_self _ _)
    have hbd := toInt32_bounds (E.LZ4_compress b dest (toInt32 b.length)).1
    cases fuel with
    | zero => simp at hfuel
    | succ fuel =>
      rw [List.flatten_cons, hwe] at hd
      have t4 : d._stream.take 4 = be32 b.length := by
        rw [hd]; simp [be32]
      have d4 : (d._stream.drop 4).take 4 =
          be32 (toInt32 (E.LZ4_compress b dest (toInt32 b.length)).1).toNat := by
        rw [hd]; simp [be32]
      have d8 : d._stream.drop 8 =
          readMem (E.LZ4_compress b dest (toInt32 b.length)).2
            (toInt32 (E.LZ4_compress b dest (toInt32 b.length)).1).toNat ++ ws.flatten := by
        rw [hd]; simp [be32]
      have l0 : ¬ d._stream.length = 0 := by
        rw [hd]; simp [be32]
      have l8 : ¬ d._stream.length < 8 := by
        rw [hd]; simp [be32]
      obtain ⟨d1, dst1, hstep, hd1, hout⟩ := decompressOneBlock_frame E hrt b dest hbl hpos
        { d with _stream := d._stream.drop 8 } ws.flatten d8 dst
      have hrec := ih (fun x hx => hlen x (List.mem_cons_of_mem _ hx)) fuel
        (by simp at hfuel; omega) d1 dst1 hd1
      rw [decompressFrames_succ]
      simp only [if_neg l0, if_neg l8, t4, d4, decodeBE32_be32 _ hbl,
        decodeBE32_be32 _ (show (toInt32 (E.LZ4_compress b dest (toInt32 b.length)).1).toNat <
          4294967296 by omega), hstep, hrec, hout]
      simp

theorem storedEnv_uncompress_result (src dest : Mem) (osize : Int) :
    storedEnv.LZ4_uncompress src dest osize =
      (toInt32 ((toUInt32 osize : Int) + 1),
        storeBytes dest 0 ((readMem src (toUInt32 osize + 1)).drop 1)) := rfl

theorem storedEnv_roundTrip : LZ4RoundTrip storedEnv := by
  intro src dest hlen hpos srcm dstm hagree
  rw [storedEnv_compress_result] at hpos hagree ⊢
  rw [storedEnv_uncompress_result]
  simp only [] at hpos hagree ⊢
  have hu : toUInt32 (toInt32 (src.length : Nat)) = src.length := by
    rw [toUInt32_toInt32, toUInt32_natCast]
    exact Nat.mod_eq_of_lt hlen
  have hret : toInt32 ((src.length : Int) + 1) = (src.length : Int) + 1 := by
    unfold toInt32 at hpos ⊢
    omega
  rw [hu]
  refine ⟨by rw [hret], ?_⟩
  have hpay : (readMem srcm (src.length + 1)).drop 1 = src := by
    apply List.ext_get
    · simp [readMem]
    · intro i h1 h2
      have := hagree (i + 1) (by rw [hret]; omega)
      simp only [readMem, List.get_eq_getElem, List.getElem_drop, List.getElem_map,
        List.getElem_range]
      rw [Nat.add_comm 1 i, this]
      simp [storeBytes, List.getElem?_eq_getElem h2]
  have hl : ((readMem srcm (src.length + 1)).drop 1).length = src.length := by
    rw [hpay]
  have := readMem_storeBytes_zero dstm ((readMem srcm (src.length + 1)).drop 1)
  rw [hl] at this
  rw [this, hpay]

/-- C1. Let the LZ4 primitives invert each other, let `bswap` be the
host-to-network conversion, and let `realloc` return a buffer whenever asked.
For every sequence of blocks (each a `uint32_t` number of bytes) that
`compressOneBlock` frames into an empty sink, reading the sink bytes back frame
by frame, each header decoded and passed to `decompressOneBlock`, produces
exactly the concatenation of the blocks, and the returned counts add up to its
length. -/
theorem compress_decompress_round_trip (E : Env) (s : Lz4CompressStream)
    (d : Lz4DecompressStream) (dst : Mem) (bs : List (List Byte))
    (hb : HostToNetwork E) (hrt : LZ4RoundTrip E)
    (hlen : ∀ b ∈ bs, b.length < 4294967296) (hs : s._stream = [])
    (hok : (Lz4CompressStream.compressBlocks E s bs).1 = .ok ())
    (hd : d._stream = (Lz4CompressStream.compressBlocks E s bs).2._stream.flatten) :
    Lz4DecompressStream.decompressStream E true d dst =
      some (.ok (bs.flatten, bs.flatten.length)) := by
  obtain ⟨ws, hws, hfr⟩ := compressBlocks_frames E hb bs s hlen hok
  rw [hs, List.nil_append] at hws
  rw [hws] at hd
  unfold Lz4DecompressStream.decompressStream
  apply decompressFrames_frames E hrt bs ws hfr hlen _ _ d dst hd
  have := frames_length_le E bs ws hfr
  rw [hd]
  omega

/-- Witness for C1: the stand-in codec on the blocks `[1, 2, 3]`, `[4, 5]` and
the empty block, read back through a stream whose buffer starts too small. -/
theorem compress_decompress_round_trip_witness :
    (Lz4CompressStream.compressBlocks storedEnv ⟨[], fun _ => 0, 72, 0⟩
      [[1, 2, 3], [4, 5], []]).1 = .ok () ∧
    Lz4DecompressStream.decompressStream storedEnv true
      ⟨(Lz4CompressStream.compressBlocks storedEnv ⟨[], fun _ => 0, 72, 0⟩
        [[1, 2, 3], [4, 5], []]).2._stream.flatten, fun _ => 0, 2, 0⟩ (fun _ => 0) =
      some (.ok (([[1, 2, 3], [4, 5], []] : List (List Byte)).flatten,
        ([[1, 2, 3], [4, 5], []] : List (List Byte)).flatten.length)) :=
  ⟨rfl,
    compress_decompress_round_trip storedEnv ⟨[], fun _ => 0, 72, 0⟩ _ (fun _ => 0)
      [[1, 2, 3], [4, 5], []] byteSwap32_hostToNetwork storedEnv_roundTrip (by decide) rfl rfl
      rfl⟩

end NativeTask
